import Mathlib

/-
  Verification development for the trace-pile storage engine
  (`mtpy/processing/pile.py`).

  Shallow embedding conventions:
  * Python floats (times, sample intervals) are modelled as exact rationals `ℚ`;
    the float literal `1e-6` appearing in the chopper's loop guard is the
    rational `1/1000000`, and `0.5` is `1/2`.
  * Python strings (file paths, network/station/location/channel codes) carry
    no structure relevant to the verified claims; they are modelled by the
    abstract countable type `Str := ℕ` with decidable equality.
  * Python integers are `ℤ` (they are unbounded in Python, so no wrap-around).
  * Python `None`-able values are `Option`s.
  * A raised Python exception is modelled by an error value; where the
    post-raise object state is observable the operation returns the error
    together with the state as it was at the raise point.
  * Python `dict`s are association lists in insertion order (first occurrence
    of a key is its binding; assignment replaces the first occurrence).
-/

set_option autoImplicit false

namespace MtPile

/-- Python string values, abstracted: only equality matters for the claims. -/
abbrev Str := Nat

/-- The exception kinds the embedded code can raise.  The Python message
strings are irrelevant to the claims and are dropped. -/
inductive PyError where
  | dataNotLoaded
  | fileLoadError
  | osError
  | filenameAttributeError
deriving DecidableEq

/-- The mutable lifecycle state of a `TracesFile`: the `data_loaded` flag, the
`data_use_count` reference counter and whether the owned traces currently hold
sample data (`tr.drop_data()` releases it).  From `TracesFile.__init__` /
`load_data` / `use_data` / `drop_data` in `pile.py`. -/
structure TracesFileState where
  data_loaded : Bool
  data_use_count : Int
  traces_have_data : Bool
deriving DecidableEq

/-- `TracesFile.load_data` (without `force`): if data is not yet loaded,
re-read the traces with their sample data and set `data_loaded`; otherwise do
nothing. -/
def load_data (s : TracesFileState) : TracesFileState :=
  if s.data_loaded then s
  else { s with data_loaded := true, traces_have_data := true }

/-- `TracesFile.use_data`: raise when data is not loaded (the returned state
is the state at the raise point, unchanged), else increment the use counter. -/
def use_data (s : TracesFileState) : Option PyError × TracesFileState :=
  if s.data_loaded then
    (none, { s with data_use_count := s.data_use_count + 1 })
  else
    (some PyError.dataNotLoaded, s)

/-- `TracesFile.drop_data`: when loaded, drop the sample data and clear the
flag if exactly one user remains, then decrement the counter; when not loaded,
reset the counter to zero. -/
def drop_data (s : TracesFileState) : TracesFileState :=
  if s.data_loaded then
    if s.data_use_count = 1 then
      { data_loaded := false
        data_use_count := s.data_use_count - 1
        traces_have_data := false }
    else
      { s with data_use_count := s.data_use_count - 1 }
  else
    { s with data_use_count := 0 }

/-!  The window loop of `Pile.chopper` (`pile.py`, `iwin` loop).  Each
iteration computes `wmin = tmin + iwin*tinc`,
`wmax = min(tmin + (iwin+1)*tinc, tmax)`, `eps = tinc*1e-6` and breaks before
yielding once `wmin >= tmax - eps`.  The Python loop is a `while True`; it is
embedded with explicit fuel (for `tinc = 0` the source loop genuinely does not
terminate), and the theorems quantify over sufficient fuel. -/

/-- One window of the chopper: the pair `(wmin, wmax)` for window index
`iwin`. -/
def chopperWindow (tmin tmax tinc : ℚ) (iwin : ℕ) : ℚ × ℚ :=
  (tmin + iwin * tinc, min (tmin + (iwin + 1) * tinc) tmax)

/-- The chopper's loop guard: iteration `iwin` yields a window iff
`wmin < tmax - tinc*1e-6`. -/
def chopperContinues (tmin tmax tinc : ℚ) (iwin : ℕ) : Prop :=
  tmin + iwin * tinc < tmax - tinc * (1 / 1000000)

instance (tmin tmax tinc : ℚ) (iwin : ℕ) :
    Decidable (chopperContinues tmin tmax tinc iwin) := by
  unfold chopperContinues; infer_instance

/-- The list of `(wmin, wmax)` windows yielded by `Pile.chopper`'s loop,
starting at window index `iwin`, with explicit fuel. -/
def chopperWindowsAux (tmin tmax tinc : ℚ) : ℕ → ℕ → List (ℚ × ℚ)
  | 0, _ => []
  | fuel + 1, iwin =>
    if chopperContinues tmin tmax tinc iwin then
      chopperWindow tmin tmax tinc iwin ::
        chopperWindowsAux tmin tmax tinc fuel (iwin + 1)
    else []

/-- The windows yielded by `Pile.chopper` from window index 0. -/
def chopperWindows (tmin tmax tinc : ℚ) (fuel : ℕ) : List (ℚ × ℚ) :=
  chopperWindowsAux tmin tmax tinc fuel 0

/-!  The incomplete-window weeding stage of `Pile._process_chopped`
(`pile.py`).  The sort and the external `degapper` run before it; the weeding
itself inspects each (possibly degapped) trace's extent against the padded
window `[wmin-tpad, wmax+tpad]`. -/

/-- A chopped trace as seen by the weeding stage: its time extent and sample
interval (`tr.tmin`, `tr.tmax`, `tr.deltat`).  `tr.tmax` is the time of the
last sample, so the covered extent ends at `tmax + deltat`. -/
structure ChoppedTrace where
  tmin : ℚ
  tmax : ℚ
  deltat : ℚ
deriving DecidableEq

/-- Modelled from the spec: `Trace.extend(newStart, newEnd, fillPolicy)` is an
external collaborator ("in-place time extension with a fill policy",
`trace.py` is not part of this repository snapshot).  It extends the trace's
extent to cover the given bounds; the fill data is irrelevant here. -/
def extendTrace (tr : ChoppedTrace) (tmin' tmax' : ℚ) : ChoppedTrace :=
  { tr with tmin := min tr.tmin tmin', tmax := max tr.tmax tmax' }

/-- The per-trace weeding decision of `Pile._process_chopped` when
`want_incomplete` is false: keep the trace if both edges are within half a
sample interval of the padded window; otherwise, when `degap` is set and both
edges fall strictly short by at most 5 sample intervals, extend to the exact
window edges with a repeat fill and keep; otherwise drop. -/
def weedTrace (degap : Bool) (wmin wmax tpad : ℚ) (tr : ChoppedTrace) :
    Option ChoppedTrace :=
  let emin := tr.tmin - (wmin - tpad)
  let emax := tr.tmax + tr.deltat - (wmax + tpad)
  if |emin| ≤ (1 / 2) * tr.deltat ∧ |emax| ≤ (1 / 2) * tr.deltat then
    some tr
  else if degap = true ∧ (0 < emin ∧ emin ≤ 5 * tr.deltat) ∧
      (-(5 * tr.deltat) ≤ emax ∧ emax < 0) then
    some (extendTrace tr (wmin - tpad) (wmax + tpad - tr.deltat))
  else none

/-- The weeding loop over the whole (sorted, degapped) chopped list
(`chopped_weeded` accumulation in `_process_chopped`). -/
def weedChopped (degap : Bool) (wmin wmax tpad : ℚ)
    (chopped : List ChoppedTrace) : List ChoppedTrace :=
  chopped.filterMap (weedTrace degap wmin wmax tpad)

/-- The keep condition exactly as the specification claim words it (for
comparison with `weedTrace`, which is translated from the code): a trace is
kept iff its edges are within half a sample interval of the padded window,
or, when degapping is enabled, some edge falls short of the padded window,
no edge overhangs it, and every shortfall is at most 5 sample intervals. -/
def specKeepC2 (degap : Bool) (wmin wmax tpad : ℚ) (tr : ChoppedTrace) :
    Prop :=
  let emin := tr.tmin - (wmin - tpad)
  let emax := tr.tmax + tr.deltat - (wmax + tpad)
  (|emin| ≤ (1 / 2) * tr.deltat ∧ |emax| ≤ (1 / 2) * tr.deltat) ∨
  (degap = true ∧ (0 < emin ∨ emax < 0) ∧
    0 ≤ emin ∧ emin ≤ 5 * tr.deltat ∧ -(5 * tr.deltat) ≤ emax ∧ emax ≤ 0)

/-!  The open-file bookkeeping of `Pile.chopper` (`pile.py`): per window, the
chop pass loads and returns the set of used files; newly used files get
`use_data()`, the accessor's open set is updated, and after the yield every
open file not used by the current window gets `drop_data()` and is removed
from the open set.  After the loop, unless `keep_current_files_open` is set,
the remaining open files are released.  The per-window used sets are the
abstract input of this state machine (they are determined by the pile's
contents and filters, which are irrelevant to claim C3). -/

/-- The chopper's file-bookkeeping state: the accessor's open-file set, the
lifecycle state of every file, and logs of the `drop_data` calls made during
the window iteration (`releasedLog`, one set per completed window — Python
iterates the set in unspecified order, so only the set is meaningful) and by
the final cleanup (`finalReleased`). -/
structure ChopperFileState (F : Type) where
  openFiles : Finset F
  files : F → TracesFileState
  releasedLog : List (Finset F)
  finalReleased : Finset F

/-- One window of `Pile.chopper`'s file bookkeeping, given the set of files
the chop pass used in this window: `load_data` runs on used files (via
`TracesFile.chop`), `use_data` on newly opened ones, the open set takes in the
used files, and after the yield the now-unused open files are dropped and
removed. -/
def chopperFileStep {F : Type} [DecidableEq F] (used : Finset F)
    (st : ChopperFileState F) : ChopperFileState F :=
  let files1 := fun f => if f ∈ used then load_data (st.files f) else st.files f
  let files2 := fun f =>
    if f ∈ used \ st.openFiles then (use_data (files1 f)).2 else files1 f
  let opens1 := st.openFiles ∪ used
  let unused := opens1 \ used
  let files3 := fun f => if f ∈ unused then drop_data (files2 f) else files2 f
  { openFiles := opens1 \ unused
    files := files3
    releasedLog := st.releasedLog ++ [unused]
    finalReleased := st.finalReleased }

/-- The whole chopper iteration's file bookkeeping: fold the window steps over
the per-window used sets, then, unless `keep_current_files_open` is set,
release every remaining open file. -/
def chopperFileRun {F : Type} [DecidableEq F] (usedSeq : List (Finset F))
    (keep_current_files_open : Bool) (st : ChopperFileState F) :
    ChopperFileState F :=
  let st1 := usedSeq.foldl (fun s u => chopperFileStep u s) st
  if keep_current_files_open then st1
  else
    { openFiles := ∅
      files := fun f =>
        if f ∈ st1.openFiles then drop_data (st1.files f) else st1.files f
      releasedLog := st1.releasedLog
      finalReleased := st1.finalReleased ∪ st1.openFiles }

/-- The releases the amended claim C3 predicts during the window iteration:
at each window, the files open from the previous window but not used now. -/
def expectedReleases {F : Type} [DecidableEq F] (usedSeq : List (Finset F))
    (opens : Finset F) : List (Finset F) :=
  match usedSeq with
  | [] => []
  | u :: rest => (opens \ u) :: expectedReleases rest u

/-!  `TracesGroup.update` (`pile.py`): the aggregate rebuild/grow of the
identity sets and the time span over a list of children, each either a nested
`TracesGroup` or a single `trace.Trace`.  The small-set-to-tuple conversion
(`_convert_small_sets_to_tuples` / `_convert_tuples_to_sets`) only changes the
in-memory representation of the same collection of elements and is dropped;
the sets are `Finset`s throughout.  `nupdates` is an opaque counter and is
dropped too. -/

/-- The identity fields of a single `trace.Trace` (an external collaborator:
network, station, location, channel, and the time extent). -/
structure RawTrace where
  network : Str
  station : Str
  location : Str
  channel : Str
  tmin : ℚ
  tmax : ℚ
deriving DecidableEq

/-- `tr.nslc_id`: the 4-tuple identity of a trace. -/
def RawTrace.nslc_id (t : RawTrace) : Str × Str × Str × Str :=
  (t.network, t.station, t.location, t.channel)

/-- The aggregate state maintained by `TracesGroup`: the five lookup sets and
the combined time range (`None` until first content). -/
structure GroupSets where
  networks : Finset Str
  stations : Finset Str
  locations : Finset Str
  channels : Finset Str
  nslc_ids : Finset (Str × Str × Str × Str)
  tmin : Option ℚ
  tmax : Option ℚ
deriving DecidableEq

/-- `TracesGroup.empty`. -/
def emptyGroup : GroupSets :=
  { networks := ∅, stations := ∅, locations := ∅, channels := ∅
    nslc_ids := ∅, tmin := none, tmax := none }

/-- A child passed to `TracesGroup.update`: a nested group or a single
trace. -/
inductive GroupItem where
  | group (g : GroupSets)
  | tr (t : RawTrace)

/-- The networks a child contributes (`c.networks` for a group,
`{c.network}` for a trace). -/
def itemNetworks : GroupItem → Finset Str
  | .group g => g.networks
  | .tr t => {t.network}

/-- The stations a child contributes. -/
def itemStations : GroupItem → Finset Str
  | .group g => g.stations
  | .tr t => {t.station}

/-- The locations a child contributes. -/
def itemLocations : GroupItem → Finset Str
  | .group g => g.locations
  | .tr t => {t.location}

/-- The channels a child contributes. -/
def itemChannels : GroupItem → Finset Str
  | .group g => g.channels
  | .tr t => {t.channel}

/-- The nslc 4-tuples a child contributes. -/
def itemNslcIds : GroupItem → Finset (Str × Str × Str × Str)
  | .group g => g.nslc_ids
  | .tr t => {t.nslc_id}

/-- A child's `tmin` attribute: a group's may be `None`, a trace's is a
number. -/
def itemTmin : GroupItem → Option ℚ
  | .group g => g.tmin
  | .tr t => some t.tmin

/-- A child's `tmax` attribute. -/
def itemTmax : GroupItem → Option ℚ
  | .group g => g.tmax
  | .tr t => some t.tmax

/-- Python 2 `min` on possibly-`None` values: `None` compares less than every
number, so `min` returns `None` as soon as one argument is `None`. -/
def pyMinOpt : Option ℚ → Option ℚ → Option ℚ
  | none, _ => none
  | _, none => none
  | some x, some y => some (min x y)

/-- Python 2 `max` on possibly-`None` values: `None` compares less than every
number. -/
def pyMaxOpt : Option ℚ → Option ℚ → Option ℚ
  | none, b => b
  | some x, none => some x
  | some x, some y => some (max x y)

/-- The body of `TracesGroup.update`'s `for c in content` loop for one
child. -/
def updateStep (s : GroupSets) (c : GroupItem) : GroupSets :=
  { networks := s.networks ∪ itemNetworks c
    stations := s.stations ∪ itemStations c
    locations := s.locations ∪ itemLocations c
    channels := s.channels ∪ itemChannels c
    nslc_ids := s.nslc_ids ∪ itemNslcIds c
    tmin := match s.tmin with
      | none => itemTmin c
      | some x => pyMinOpt (some x) (itemTmin c)
    tmax := match s.tmax with
      | none => itemTmax c
      | some x => pyMaxOpt (some x) (itemTmax c) }

/-- `TracesGroup.update(content, empty)`: start from the emptied state when
`empty` is set (the full-rebuild path) or from the current state otherwise,
then fold every child in. -/
def update (s : GroupSets) (content : List GroupItem) (empty : Bool) :
    GroupSets :=
  content.foldl updateStep (if empty then emptyGroup else s)

/-!  The metadata-cache shard dump/load of `TracesFileCache`
(`_dump_dircache` / `_load_dircache` in `pile.py`).  A shard is a pickled
`dict` mapping absolute path to a cached `TracesFile`; pickling is modelled as
the identity on the stored mapping (its round-trip contract).  The shard file
on disk is `Option`-valued: `none` means the file is absent. -/

/-- A cached `TracesFile` entry as the shard stores it: the aggregate
identity sets and span, the recorded `mtime`, and the parent back-reference
(present or already stripped). -/
structure CacheEntry where
  sets : GroupSets
  mtime : Int
  parent : Option Unit
deriving DecidableEq

/-- Strip the parent back-reference, as `_dump_dircache`'s
`cache_copy[fn].parent = None` does on a shallow copy. -/
def stripParent (e : CacheEntry) : CacheEntry :=
  { e with parent := none }

/-- `TracesFileCache._dump_dircache`: an empty cache removes the shard file
(result `none`); otherwise the shard file holds a copy of every entry with the
parent reference stripped. -/
def dump_dircache (cache : List (Str × CacheEntry)) :
    Option (List (Str × CacheEntry)) :=
  if cache.isEmpty then none
  else some (cache.map fun p => (p.1, stripParent p.2))

/-- `TracesFileCache._load_dircache`: unpickle the shard and weed out entries
whose backing file no longer exists (`fileExists` is the `os.path.isfile`
oracle at load time). -/
def load_dircache (content : List (Str × CacheEntry))
    (fileExists : Str → Bool) : List (Str × CacheEntry) :=
  content.filter fun p => fileExists p.1

/-!  The `loader` generator (`pile.py`): scans a list of file names, consults
the per-directory metadata cache, loads or reloads files as needed, collects
failing files and reports them once at the end.  File-system and parsing
effects (`os.path.abspath`, `os.stat`, the `re` pattern, `io.load` inside the
`TracesFile` constructor) are external collaborators, passed in as oracle
functions. -/

/-- The payload of a constructed `TracesFile` as far as the loader is
concerned: the recorded `mtime` plus an abstract tag standing for the parsed
content. -/
structure TFileMeta where
  mtime : Int
  tag : Nat
deriving DecidableEq

/-- Python `dict` lookup on an association list. -/
def assocGet (c : List (Str × TFileMeta)) (p : Str) : Option TFileMeta :=
  match c with
  | [] => none
  | (q, e) :: rest => if q = p then some e else assocGet rest p

/-- Python `dict` assignment on an association list: replace the binding if
the key is present, else append. -/
def assocPut (c : List (Str × TFileMeta)) (p : Str) (e : TFileMeta) :
    List (Str × TFileMeta) :=
  match c with
  | [] => [(p, e)]
  | (q, e') :: rest =>
    if q = p then (q, e) :: rest else (q, e') :: assocPut rest p e

/-- The external collaborators the loader calls out to. -/
structure LoaderEnv where
  /-- `os.path.abspath`. -/
  abspath : Str → Str
  /-- The compiled `filename_attributes` regex, when given: yields the match's
  group dictionary or `none` when the pattern does not match. -/
  matchAttrs : Option (Str → Option (List (Str × Str)))
  /-- `os.stat(filename)[8]`: the file's mtime, or an `OSError`. -/
  statMtime : Str → Except PyError Int
  /-- Constructing `TracesFile(None, abspath, fileformat, substitutions,
  mtime)`, which parses the file headers; may raise a load error. -/
  loadFile : Str → Option (List (Str × Str)) → Int → Except PyError TFileMeta

/-- The identity keys the loader extracts from the regex group dictionary. -/
def identityKeys : List Str := [0, 1, 2, 3]

/-- The `substitutions` dictionary built from a match's group dictionary:
only the network/station/location/channel keys are kept. -/
def filterSubs (gd : List (Str × Str)) : List (Str × Str) :=
  gd.filter fun kv => kv.1 ∈ identityKeys

/-- Python truthiness of the `substitutions` variable: `None` and the empty
dict are falsy. -/
def subsTruthy : Option (List (Str × Str)) → Bool
  | none => false
  | some l => !l.isEmpty

/-- The loader's accumulated state: the cache's entry map, the `TracesFile`s
yielded so far, and the `failures` list of absolute paths. -/
structure LoaderState where
  cache : List (Str × TFileMeta)
  yielded : List TFileMeta
  failures : List Str
deriving DecidableEq

/-- The reload path of the loader's per-file body: construct a fresh
`TracesFile` (which parses the file and may fail), and on success write it
back to the cache — unless substitutions are in force (`if cache and not
substitutions: cache.put(...)`). -/
def loaderLoad (env : LoaderEnv) (useCache : Bool) (st : LoaderState)
    (abspath : Str) (subs : Option (List (Str × Str))) (mtime : Int) :
    LoaderState :=
  match env.loadFile abspath subs mtime with
  | .error _ => { st with failures := st.failures ++ [abspath] }
  | .ok tfile =>
    let cache' :=
      if useCache && !subsTruthy subs then assocPut st.cache abspath tfile
      else st.cache
    { cache := cache', yielded := st.yielded ++ [tfile]
      failures := st.failures }

/-- The part of the loader's per-file `try` body after `substitutions` has
been computed: stat the file, consult the cache, and reload when there is no
cache entry, the entry's mtime differs, or substitutions are in force
(`if not tfile or tfile.mtime != mtime or substitutions:`); otherwise yield
the cached entry. -/
def loaderStepWithSubs (env : LoaderEnv) (useCache : Bool) (st : LoaderState)
    (filename abspath : Str) (subs : Option (List (Str × Str))) :
    LoaderState :=
  match env.statMtime filename with
  | .error _ => { st with failures := st.failures ++ [abspath] }
  | .ok mtime =>
    match (if useCache then assocGet st.cache abspath else none) with
    | none => loaderLoad env useCache st abspath subs mtime
    | some t =>
      if t.mtime ≠ mtime ∨ subsTruthy subs = true then
        loaderLoad env useCache st abspath subs mtime
      else
        { st with yielded := st.yielded ++ [t] }

/-- The loader's per-file `try` body: compute the absolute path, apply the
filename-attribute pattern (a mismatch raises `FilenameAttributeError` and
records a failure), then continue with `loaderStepWithSubs`. -/
def loaderStep (env : LoaderEnv) (useCache : Bool) (st : LoaderState)
    (filename : Str) : LoaderState :=
  let abspath := env.abspath filename
  match env.matchAttrs with
  | none => loaderStepWithSubs env useCache st filename abspath none
  | some rx =>
    match rx filename with
    | none => { st with failures := st.failures ++ [abspath] }
    | some gd =>
      loaderStepWithSubs env useCache st filename abspath
        (some (filterSubs gd))

/-- The loader's scan over the whole input list. -/
def loaderRun (env : LoaderEnv) (useCache : Bool) (st : LoaderState)
    (filenames : List Str) : LoaderState :=
  filenames.foldl (loaderStep env useCache) st

/-- The single batched failure report the loader emits after the scan
(`if failures: logger.warn(...)`): `none` when there were no failures. -/
def loaderReport (st : LoaderState) : Option (List Str) :=
  if st.failures.isEmpty then none else some st.failures

/-- The whole `loader` call on an initial cache: final state plus the batch
report. -/
def loaderAll (env : LoaderEnv) (useCache : Bool)
    (cache0 : List (Str × TFileMeta)) (filenames : List Str) :
    LoaderState × Option (List Str) :=
  let st := loaderRun env useCache ⟨cache0, [], []⟩ filenames
  (st, loaderReport st)

/-! ## Claim about the chopper's window layout -/

/-- Helper: the chopper loop yields at most `fuel` windows. -/
theorem chopperWindowsAux_length_le (tmin tmax tinc : ℚ) :
    ∀ fuel i : ℕ, (chopperWindowsAux tmin tmax tinc fuel i).length ≤ fuel := by
  intro fuel
  induction fuel with
  | zero => intro i; simp [chopperWindowsAux]
  | succ f ih =>
    intro i
    rw [chopperWindowsAux]
    split
    · simpa using Nat.succ_le_succ (ih (i + 1))
    · simp

/-- Helper: for a positive window length, the `j`-th window yielded by the
chopper loop started at window index `i` is the `(i+j)`-th window of the
layout, present exactly while the loop guard holds there. -/
theorem chopperWindowsAux_get (tmin tmax tinc : ℚ) (hpos : 0 < tinc) :
    ∀ fuel i j : ℕ, j < fuel →
      (chopperWindowsAux tmin tmax tinc fuel i).get? j =
        if chopperContinues tmin tmax tinc (i + j) then
          some (chopperWindow tmin tmax tinc (i + j))
        else none := by
  intro fuel
  induction fuel with
  | zero => intro i j h; omega
  | succ f ih =>
    intro i j hj
    by_cases hc : chopperContinues tmin tmax tinc i
    · rw [chopperWindowsAux, if_pos hc]
      cases j with
      | zero => simpa using hc
      | succ k =>
        have h := ih (i + 1) k (by omega)
        have hik : i + 1 + k = i + (k + 1) := by omega
        rw [hik] at h
        simpa using h
    · rw [chopperWindowsAux, if_neg hc]
      have hcj : ¬chopperContinues tmin tmax tinc (i + j) := by
        intro hj'
        apply hc
        unfold chopperContinues at hj' ⊢
        have hmono : (i : ℚ) * tinc ≤ ((i + j : ℕ) : ℚ) * tinc := by
          apply mul_le_mul_of_nonneg_right _ hpos.le
          exact_mod_cast Nat.le_add_right i j
        linarith
      simp [hcj]

/-- Helper: the concrete scenario of claim C1 — chopping `[t0, t0+3*inc]`
with window length `inc` yields exactly three windows. -/
theorem chopper_three_windows (t0 inc : ℚ) (hinc : 0 < inc) (g : ℕ)
    (hg : 4 ≤ g) :
    chopperWindows t0 (t0 + 3 * inc) inc g =
      [(t0, t0 + inc), (t0 + inc, t0 + 2 * inc),
        (t0 + 2 * inc, t0 + 3 * inc)] := by
  apply List.ext_get?
  intro n
  rcases Nat.lt_or_ge n g with hn | hn
  · rw [chopperWindows,
      chopperWindowsAux_get t0 (t0 + 3 * inc) inc hinc g 0 n hn]
    match n with
    | 0 =>
      have hw : chopperWindow t0 (t0 + 3 * inc) inc 0 = (t0, t0 + inc) := by
        unfold chopperWindow
        rw [min_eq_left (by push_cast; linarith)]
        push_cast
        norm_num
      rw [if_pos]
      · rw [hw]
        rfl
      · unfold chopperContinues
        push_cast
        linarith
    | 1 =>
      have hw : chopperWindow t0 (t0 + 3 * inc) inc 1 =
          (t0 + inc, t0 + 2 * inc) := by
        unfold chopperWindow
        rw [min_eq_left (by push_cast; linarith)]
        push_cast
        simp only [Prod.mk.injEq]
        constructor <;> ring_nf
      rw [if_pos]
      · rw [hw]
        rfl
      · unfold chopperContinues
        push_cast
        linarith
    | 2 =>
      have hw : chopperWindow t0 (t0 + 3 * inc) inc 2 =
          (t0 + 2 * inc, t0 + 3 * inc) := by
        unfold chopperWindow
        rw [min_eq_left (by push_cast; linarith)]
        push_cast
        simp only [Prod.mk.injEq]
        constructor <;> ring_nf
      rw [if_pos]
      · rw [hw]
        rfl
      · unfold chopperContinues
        push_cast
        linarith
    | (k + 3) =>
      rw [if_neg]
      · simp
      · unfold chopperContinues
        push_cast
        intro hcontra
        nlinarith [Nat.cast_nonneg (α := ℚ) k]
  · rw [chopperWindows, List.get?_eq_none.mpr, List.get?_eq_none.mpr]
    · simp
      omega
    · exact le_trans (chopperWindowsAux_length_le t0 (t0 + 3 * inc) inc g 0) hn

/-- C1: for positive window length `tinc`, the `j`-th window yielded by
`Pile.chopper` covers exactly `[tmin + j*tinc, min(tmin + (j+1)*tinc, tmax)]`
and is yielded exactly while the window start is below `tmax` minus the
tolerance `tinc*1e-6`; in particular chopping `[t0, t0+3*inc]` with window
length `inc` yields exactly the three windows `(t0, t0+inc)`,
`(t0+inc, t0+2*inc)`, `(t0+2*inc, t0+3*inc)`. -/
theorem chopper_window_layout (tmin tmax tinc : ℚ) (hpos : 0 < tinc)
    (fuel j : ℕ) (hfuel : j < fuel) :
    ((chopperWindows tmin tmax tinc fuel).get? j =
        if tmin + (j : ℚ) * tinc < tmax - tinc * (1 / 1000000) then
          some (tmin + (j : ℚ) * tinc, min (tmin + ((j : ℚ) + 1) * tinc) tmax)
        else none) ∧
    (∀ t0 inc : ℚ, 0 < inc → ∀ g : ℕ, 4 ≤ g →
      chopperWindows t0 (t0 + 3 * inc) inc g =
        [(t0, t0 + inc), (t0 + inc, t0 + 2 * inc),
          (t0 + 2 * inc, t0 + 3 * inc)]) := by
  constructor
  · rw [chopperWindows,
      chopperWindowsAux_get tmin tmax tinc hpos fuel 0 j hfuel]
    simp [chopperContinues, chopperWindow]
  · intro t0 inc hinc g hg
    exact chopper_three_windows t0 inc hinc g hg

/-- Witness for C1 on the concrete range `[0, 3]` with window length 1. -/
theorem chopper_window_layout_witness :
    (chopperWindows 0 3 1 5).get? 1 = some (1, 2) ∧
    chopperWindows 0 3 1 6 = [(0, 1), (1, 2), (2, 3)] := by
  have h := chopper_window_layout 0 3 1 (by norm_num) 5 1 (by norm_num)
  constructor
  · rw [h.1, if_pos (by norm_num)]
    norm_num [min_def]
  · have h2 := h.2 0 1 (by norm_num) 6 (by norm_num)
    norm_num at h2
    exact h2

/-! ## Claim about the incomplete-window weeding -/

/-- C2 counterexample: with degapping enabled, a trace whose start edge
matches the padded window `[0, 10]` exactly (`emin = 0`) and whose end edge
falls short by 2 sample intervals (`deltat = 1`, extent ending at 8) is kept
according to the claim's condition (`specKeepC2`) but dropped by the code's
weeding (`weedTrace`): the repeat-fill branch requires both edges to fall
strictly short. -/
theorem weed_incomplete_counterexample :
    specKeepC2 true 0 10 0 ⟨0, 7, 1⟩ ∧
    weedTrace true 0 10 0 ⟨0, 7, 1⟩ = none := by
  constructor
  · simp only [specKeepC2]
    norm_num
  · simp only [weedTrace]
    norm_num

/-- C2 (amended): with `want_incomplete=false`, a chopped trace is kept iff
both its edges lie within half a sample interval of the padded window
`[wmin-tpad, wmax+tpad]`, or degapping is enabled and both edges fall
strictly short of the padded window, each by at most 5 sample intervals — in
which case the trace is extended with a repeat fill to the exact window
edges.  Every kept trace is either unchanged or so extended, and in both
cases its resulting extent deviates from the padded window by at most half a
sample interval; the weeded window list consists exactly of the kept
traces. -/
theorem weed_incomplete_amended (degap : Bool) (wmin wmax tpad : ℚ)
    (tr : ChoppedTrace) :
    ((∃ tr', weedTrace degap wmin wmax tpad tr = some tr') ↔
      ((|tr.tmin - (wmin - tpad)| ≤ (1 / 2) * tr.deltat ∧
          |tr.tmax + tr.deltat - (wmax + tpad)| ≤ (1 / 2) * tr.deltat) ∨
        (degap = true ∧
          (0 < tr.tmin - (wmin - tpad) ∧
            tr.tmin - (wmin - tpad) ≤ 5 * tr.deltat) ∧
          (-(5 * tr.deltat) ≤ tr.tmax + tr.deltat - (wmax + tpad) ∧
            tr.tmax + tr.deltat - (wmax + tpad) < 0)))) ∧
    (∀ tr', weedTrace degap wmin wmax tpad tr = some tr' →
      (tr' = tr ∨
        (degap = true ∧ tr'.deltat = tr.deltat ∧ tr'.tmin = wmin - tpad ∧
          tr'.tmax + tr'.deltat = wmax + tpad)) ∧
      |tr'.tmin - (wmin - tpad)| ≤ (1 / 2) * tr'.deltat ∧
      |tr'.tmax + tr'.deltat - (wmax + tpad)| ≤ (1 / 2) * tr'.deltat) ∧
    (∀ (chopped : List ChoppedTrace) (tr'' : ChoppedTrace),
      tr'' ∈ weedChopped degap wmin wmax tpad chopped ↔
        ∃ t ∈ chopped, weedTrace degap wmin wmax tpad t = some tr'') := by
  simp only [weedTrace]
  by_cases h1 : |tr.tmin - (wmin - tpad)| ≤ (1 / 2) * tr.deltat ∧
      |tr.tmax + tr.deltat - (wmax + tpad)| ≤ (1 / 2) * tr.deltat
  · rw [if_pos h1]
    refine ⟨⟨fun _ => Or.inl h1, fun _ => ⟨tr, rfl⟩⟩, ?_, ?_⟩
    · intro tr' htr'
      injection htr' with h
      subst h
      exact ⟨Or.inl rfl, h1.1, h1.2⟩
    · intro chopped tr''
      simp [weedChopped, List.mem_filterMap, weedTrace]
  · rw [if_neg h1]
    by_cases h2 : degap = true ∧
        (0 < tr.tmin - (wmin - tpad) ∧
          tr.tmin - (wmin - tpad) ≤ 5 * tr.deltat) ∧
        (-(5 * tr.deltat) ≤ tr.tmax + tr.deltat - (wmax + tpad) ∧
          tr.tmax + tr.deltat - (wmax + tpad) < 0)
    · rw [if_pos h2]
      obtain ⟨hdg, ⟨he1, he2⟩, he3, he4⟩ := h2
      have hdelta : 0 < tr.deltat := by linarith
      have hmin : min tr.tmin (wmin - tpad) = wmin - tpad :=
        min_eq_right (by linarith)
      have hmax : max tr.tmax (wmax + tpad - tr.deltat) =
          wmax + tpad - tr.deltat := max_eq_right (by linarith)
      refine ⟨⟨fun _ => Or.inr ⟨hdg, ⟨he1, he2⟩, he3, he4⟩,
        fun _ => ⟨_, rfl⟩⟩, ?_, ?_⟩
      · intro tr' htr'
        injection htr' with h
        subst h
        refine ⟨Or.inr ⟨hdg, rfl, ?_, ?_⟩, ?_, ?_⟩
        · simpa [extendTrace] using hmin
        · simp only [extendTrace]
          rw [hmax]
          ring_nf
        · simp only [extendTrace]
          rw [hmin]
          simpa using by positivity
        · simp only [extendTrace]
          rw [hmax]
          have : wmax + tpad - tr.deltat + tr.deltat - (wmax + tpad) = 0 := by
            ring
          rw [this]
          simpa using by positivity
      · intro chopped tr''
        simp [weedChopped, List.mem_filterMap, weedTrace]
    · rw [if_neg h2]
      refine ⟨⟨fun h => ?_, fun hR => ?_⟩, ?_, ?_⟩
      · obtain ⟨tr', htr'⟩ := h
        exact absurd htr' (by simp)
      · rcases hR with hL | hR2
        · exact absurd hL h1
        · exact absurd hR2 h2
      · intro tr' htr'
        exact absurd htr' (by simp)
      · intro chopped tr''
        simp [weedChopped, List.mem_filterMap, weedTrace]

/-- Witness for the amended C2: a trace short by one sample at the start and
two at the end of the window `[0, 10]` is extended to the exact window and
kept with zero deviation. -/
theorem weed_incomplete_amended_witness :
    weedTrace true 0 10 0 ⟨1, 7, 1⟩ = some ⟨0, 9, 1⟩ ∧
    |(0 : ℚ) - (0 - 0)| ≤ (1 / 2) * 1 ∧
    |(9 : ℚ) + 1 - (10 + 0)| ≤ (1 / 2) * 1 := by
  have hsome : weedTrace true 0 10 0 ⟨1, 7, 1⟩ = some ⟨0, 9, 1⟩ := by
    simp only [weedTrace, extendTrace]
    norm_num
  have h :=
    ((weed_incomplete_amended true 0 10 0 ⟨1, 7, 1⟩).2.1 ⟨0, 9, 1⟩ hsome).2
  exact ⟨hsome, h.1, h.2⟩

/-! ## Claims about the `TracesFile` retain/release lifecycle -/

/-- C7: `use_data` raises (a fatal usage error, with the object state
unchanged at the raise point) exactly when data is not loaded; when data is
loaded it succeeds and increments `data_use_count` by one, touching nothing
else. -/
theorem use_data_contract (s : TracesFileState) :
    (s.data_loaded = false →
      use_data s = (some PyError.dataNotLoaded, s)) ∧
    (s.data_loaded = true →
      use_data s =
        (none, { s with data_use_count := s.data_use_count + 1 })) := by
  constructor <;> intro h <;> simp [use_data, h]

/-- Witness for C7 at concrete states: retaining unloaded data raises and
leaves the state unchanged; retaining loaded data increments the counter. -/
theorem use_data_contract_witness :
    use_data ⟨false, 3, false⟩ =
      (some PyError.dataNotLoaded, ⟨false, 3, false⟩) ∧
    use_data ⟨true, 3, true⟩ = (none, ⟨true, 4, true⟩) := by
  refine ⟨(use_data_contract ⟨false, 3, false⟩).1 rfl, ?_⟩
  have h := (use_data_contract ⟨true, 3, true⟩).2 rfl
  simpa using h

/-- C5: on a `TracesFile` with loaded data and use count `n`, `use_data`
followed by `drop_data` leaves the count at `n`; when `n` is nonzero the
state (in particular the `data_loaded` flag) is exactly as before, and when
`n` is zero the data is unloaded and the trace sample data dropped. -/
theorem retain_release_roundtrip (s : TracesFileState) (n : Int)
    (hl : s.data_loaded = true) (hn : s.data_use_count = n) :
    ∃ s', use_data s = (none, s') ∧
      (drop_data s').data_use_count = n ∧
      (n ≠ 0 → drop_data s' = { s with data_use_count := n }) ∧
      (n = 0 → (drop_data s').data_loaded = false ∧
        (drop_data s').traces_have_data = false) := by
  refine ⟨{ s with data_use_count := n + 1 }, by simp [use_data, hl, hn],
    ?_, ?_, ?_⟩
  · by_cases h : n = 0 <;>
      simp [drop_data, hl, h, show ¬(n + 1 = 1) ↔ ¬(n = 0) by omega]
  · intro h
    have h1 : ¬(n + 1 = 1) := by omega
    simp [drop_data, hl, h1]
  · intro h
    subst h
    simp [drop_data, hl]

/-- Witness for C5 at a concrete state with use count 2: retain then release
returns the state to exactly its prior value. -/
theorem retain_release_roundtrip_witness :
    ∃ s', use_data ⟨true, 2, true⟩ = (none, s') ∧
      (drop_data s').data_use_count = 2 ∧
      drop_data s' = ⟨true, 2, true⟩ := by
  obtain ⟨s', h1, h2, h3, _⟩ :=
    retain_release_roundtrip ⟨true, 2, true⟩ 2 rfl rfl
  exact ⟨s', h1, h2, h3 (by norm_num)⟩

/-- C6 counterexample: on a `TracesFile` whose data is loaded and whose use
count is zero, `drop_data` decrements the counter to `-1`; it does not leave
it at zero, contradicting the claim's "regardless of whether data is
currently loaded". -/
theorem drop_data_at_zero_counterexample :
    (drop_data ⟨true, 0, true⟩).data_use_count = -1 ∧
    ¬(drop_data ⟨true, 0, true⟩).data_use_count = 0 := by
  decide

/-- C6 (amended): `drop_data` on a `TracesFile` whose use count is already
zero never raises; when data is not loaded it leaves the state (in particular
the zero counter) unchanged — the defensive floor — but when data is loaded
it decrements the counter to `-1`. -/
theorem drop_data_at_zero_amended (s : TracesFileState)
    (h0 : s.data_use_count = 0) :
    (s.data_loaded = false → drop_data s = s) ∧
    (s.data_loaded = true → (drop_data s).data_use_count = -1) := by
  constructor <;> intro h
  · cases s
    simp_all [drop_data]
  · simp [drop_data, h, h0]

/-- Witness for the amended C6 at concrete states. -/
theorem drop_data_at_zero_amended_witness :
    drop_data ⟨false, 0, false⟩ = ⟨false, 0, false⟩ ∧
    (drop_data ⟨true, 0, true⟩).data_use_count = -1 :=
  ⟨(drop_data_at_zero_amended ⟨false, 0, false⟩ rfl).1 rfl,
   (drop_data_at_zero_amended ⟨true, 0, true⟩ rfl).2 rfl⟩

/-! ## Claim about the chopper's per-window file release -/

/-- Helper: after one window step the accessor's open set is exactly the set
of files the window used. -/
theorem chopperFileStep_openFiles {F : Type} [DecidableEq F] (u : Finset F)
    (st : ChopperFileState F) : (chopperFileStep u st).openFiles = u := by
  simp only [chopperFileStep]
  rw [Finset.sdiff_sdiff_self_left]
  exact Finset.inter_eq_right.mpr Finset.subset_union_right

/-- Helper: one window step releases exactly the previously open files the
window did not use, and leaves the final-cleanup log alone. -/
theorem chopperFileStep_released {F : Type} [DecidableEq F] (u : Finset F)
    (st : ChopperFileState F) :
    (chopperFileStep u st).releasedLog =
      st.releasedLog ++ [st.openFiles \ u] ∧
    (chopperFileStep u st).finalReleased = st.finalReleased := by
  refine ⟨?_, rfl⟩
  simp only [chopperFileStep]
  rw [Finset.union_sdiff_right]

/-- Helper: the invariant of the chopper's window loop — the open set tracks
the last window's used set, the per-window releases are as predicted by
`expectedReleases`, and the loop itself never touches the final-cleanup
log. -/
theorem chopperFold_invariant {F : Type} [DecidableEq F] :
    ∀ (seq : List (Finset F)) (st : ChopperFileState F),
      ((seq.foldl (fun s u => chopperFileStep u s) st).openFiles =
        seq.getLast?.getD st.openFiles) ∧
      ((seq.foldl (fun s u => chopperFileStep u s) st).releasedLog =
        st.releasedLog ++ expectedReleases seq st.openFiles) ∧
      ((seq.foldl (fun s u => chopperFileStep u s) st).finalReleased =
        st.finalReleased) := by
  intro seq
  induction seq with
  | nil => intro st; simp [expectedReleases]
  | cons u rest ih =>
    intro st
    simp only [List.foldl_cons]
    obtain ⟨h1, h2, h3⟩ := ih (chopperFileStep u st)
    obtain ⟨hr, hf⟩ := chopperFileStep_released u st
    refine ⟨?_, ?_, ?_⟩
    · rw [h1, chopperFileStep_openFiles]
      cases rest with
      | nil => simp
      | cons v l =>
        rw [List.getLast?_cons_cons]
        obtain ⟨x, hx⟩ := Option.isSome_iff_exists.mp
          (List.getLast?_isSome.mpr (List.cons_ne_nil v l))
        rw [hx]
        rfl
    · rw [h2, hr, chopperFileStep_openFiles, expectedReleases]
      simp
    · rw [h3, hf]

/-- C3 counterexample run: two windows, the first using file `0`, the second
using no file, with `keep_current_files_open = True`. -/
def c3CounterRun : ChopperFileState ℕ :=
  chopperFileRun [({0} : Finset ℕ), ∅] true
    ⟨∅, fun _ => ⟨false, 0, false⟩, [], ∅⟩

/-- C3 counterexample: even though the caller requested keeping files open
across the whole chopper lifetime, the file used in window 0 but not in
window 1 is released during the iteration (its data dropped), contradicting
the claim's "no release happens until the iteration's natural end". -/
theorem chopper_release_counterexample :
    c3CounterRun.releasedLog = [∅, {0}] ∧
    ¬(∀ s ∈ c3CounterRun.releasedLog, s = ∅) ∧
    (c3CounterRun.files 0).data_loaded = false ∧
    c3CounterRun.finalReleased = ∅ := by
  decide

/-- C3 (amended): starting from an empty accessor open set, after each
window the files used in the previous window but not in the current one are
released and removed from the open set — unconditionally, whether or not
`keep_current_files_open` was requested; the flag only governs the files
still open at the iteration's natural end, which are kept open when it is
set and all released otherwise. -/
theorem chopper_release_amended {F : Type} [DecidableEq F]
    (usedSeq : List (Finset F)) (keep : Bool) (st0 : ChopperFileState F)
    (h0 : st0.openFiles = ∅) :
    ((chopperFileRun usedSeq keep st0).releasedLog =
      st0.releasedLog ++ expectedReleases usedSeq ∅) ∧
    ((chopperFileRun usedSeq keep st0).openFiles =
      if keep then usedSeq.getLast?.getD ∅ else ∅) ∧
    ((chopperFileRun usedSeq keep st0).finalReleased =
      if keep then st0.finalReleased
      else st0.finalReleased ∪ usedSeq.getLast?.getD ∅) := by
  obtain ⟨h1, h2, h3⟩ := chopperFold_invariant usedSeq st0
  rw [h0] at h1 h2
  cases keep with
  | true =>
    simp only [chopperFileRun, if_pos]
    exact ⟨h2, by simpa using h1, by simpa using h3⟩
  | false =>
    simp only [chopperFileRun, if_neg]
    refine ⟨h2, by simp, ?_⟩
    simp only [h3, h1]
    rfl

/-- Witness for the amended C3: two windows using files `0` then `1`,
without keeping files open, release file `0` after window 1 and file `1` at
the natural end. -/
theorem chopper_release_amended_witness :
    (chopperFileRun [({0} : Finset ℕ), {1}] false
      ⟨∅, fun _ => ⟨false, 0, false⟩, [], ∅⟩).releasedLog = [∅, {0}] ∧
    (chopperFileRun [({0} : Finset ℕ), {1}] false
      ⟨∅, fun _ => ⟨false, 0, false⟩, [], ∅⟩).finalReleased = {1} := by
  have h := chopper_release_amended [({0} : Finset ℕ), {1}] false
    ⟨∅, fun _ => ⟨false, 0, false⟩, [], ∅⟩ rfl
  refine ⟨?_, ?_⟩
  · rw [h.1]
    decide
  · rw [h.2.2]
    decide

/-! ## Claim about the aggregate rebuild -/

/-- Helper: membership in any of the five lookup sets after folding
`updateStep`, for a projection that the step extends by the child's
contribution. -/
theorem foldl_updateStep_mem {β : Type} [DecidableEq β]
    (proj : GroupSets → Finset β) (itemProj : GroupItem → Finset β)
    (hstep : ∀ s c, proj (updateStep s c) = proj s ∪ itemProj c) :
    ∀ (l : List GroupItem) (s : GroupSets) (x : β),
      x ∈ proj (l.foldl updateStep s) ↔
        x ∈ proj s ∨ ∃ c ∈ l, x ∈ itemProj c := by
  intro l
  induction l with
  | nil => intro s x; simp
  | cons c rest ih =>
    intro s x
    rw [List.foldl_cons, ih, hstep]
    simp only [Finset.mem_union, List.mem_cons, or_assoc]
    constructor
    · rintro (h | h | ⟨c', hc', hx⟩)
      · exact Or.inl h
      · exact Or.inr ⟨c, Or.inl rfl, h⟩
      · exact Or.inr ⟨c', Or.inr hc', hx⟩
    · rintro (h | ⟨c', hc' | hc', hx⟩)
      · exact Or.inl h
      · subst hc'
        exact Or.inr (Or.inl hx)
      · exact Or.inr (Or.inr ⟨c', hc', hx⟩)

/-- Helper: the `tmin` component of the fold only depends on the
accumulator's `tmin`, evolving by the Python 2 `min`-with-`None` step. -/
theorem foldl_updateStep_tmin :
    ∀ (l : List GroupItem) (s : GroupSets),
      (l.foldl updateStep s).tmin =
        l.foldl (fun acc c =>
          match acc with
          | none => itemTmin c
          | some x => pyMinOpt (some x) (itemTmin c)) s.tmin := by
  intro l
  induction l with
  | nil => intro s; rfl
  | cons c rest ih =>
    intro s
    rw [List.foldl_cons, List.foldl_cons, ih]
    rfl

/-- Helper: the `tmax` component of the fold only depends on the
accumulator's `tmax`. -/
theorem foldl_updateStep_tmax :
    ∀ (l : List GroupItem) (s : GroupSets),
      (l.foldl updateStep s).tmax =
        l.foldl (fun acc c =>
          match acc with
          | none => itemTmax c
          | some x => pyMaxOpt (some x) (itemTmax c)) s.tmax := by
  intro l
  induction l with
  | nil => intro s; rfl
  | cons c rest ih =>
    intro s
    rw [List.foldl_cons, List.foldl_cons, ih]
    rfl

/-- Helper: folding the Python 2 `min` step from a defined accumulator over
children with defined `tmin`s yields the attained greatest lower bound. -/
theorem tminFold_spec :
    ∀ (l : List GroupItem), (∀ c ∈ l, (itemTmin c).isSome) →
      ∀ a : ℚ, ∃ m : ℚ,
        l.foldl (fun acc c =>
          match acc with
          | none => itemTmin c
          | some x => pyMinOpt (some x) (itemTmin c)) (some a) = some m ∧
        (m = a ∨ ∃ c ∈ l, itemTmin c = some m) ∧ m ≤ a ∧
        (∀ c ∈ l, ∀ t, itemTmin c = some t → m ≤ t) := by
  intro l
  induction l with
  | nil =>
    intro _ a
    exact ⟨a, rfl, Or.inl rfl, le_refl a, by simp⟩
  | cons c rest ih =>
    intro hdef a
    obtain ⟨tc, htc⟩ :=
      Option.isSome_iff_exists.mp (hdef c (List.mem_cons_self c rest))
    obtain ⟨m, h1, h2, h3, h4⟩ :=
      ih (fun c' hc' => hdef c' (List.mem_cons_of_mem c hc')) (min a tc)
    refine ⟨m, ?_, ?_, ?_, ?_⟩
    · rw [List.foldl_cons, htc]
      exact h1
    · rcases h2 with h2 | ⟨c', hc', hx⟩
      · rcases min_choice a tc with hm | hm
        · exact Or.inl (h2.trans hm)
        · exact Or.inr ⟨c, List.mem_cons_self c rest, by rw [htc, ← hm, ← h2]⟩
      · exact Or.inr ⟨c', List.mem_cons_of_mem c hc', hx⟩
    · exact h3.trans (min_le_left a tc)
    · intro c' hc' t ht
      rcases List.mem_cons.mp hc' with rfl | hc'
      · rw [htc] at ht
        injection ht with ht
        rw [← ht]
        exact h3.trans (min_le_right a tc)
      · exact h4 c' hc' t ht

/-- Helper: the symmetric fact for the Python 2 `max` step. -/
theorem tmaxFold_spec :
    ∀ (l : List GroupItem), (∀ c ∈ l, (itemTmax c).isSome) →
      ∀ a : ℚ, ∃ m : ℚ,
        l.foldl (fun acc c =>
          match acc with
          | none => itemTmax c
          | some x => pyMaxOpt (some x) (itemTmax c)) (some a) = some m ∧
        (m = a ∨ ∃ c ∈ l, itemTmax c = some m) ∧ a ≤ m ∧
        (∀ c ∈ l, ∀ t, itemTmax c = some t → t ≤ m) := by
  intro l
  induction l with
  | nil =>
    intro _ a
    exact ⟨a, rfl, Or.inl rfl, le_refl a, by simp⟩
  | cons c rest ih =>
    intro hdef a
    obtain ⟨tc, htc⟩ :=
      Option.isSome_iff_exists.mp (hdef c (List.mem_cons_self c rest))
    obtain ⟨m, h1, h2, h3, h4⟩ :=
      ih (fun c' hc' => hdef c' (List.mem_cons_of_mem c hc')) (max a tc)
    refine ⟨m, ?_, ?_, ?_, ?_⟩
    · rw [List.foldl_cons, htc]
      exact h1
    · rcases h2 with h2 | ⟨c', hc', hx⟩
      · rcases max_choice a tc with hm | hm
        · exact Or.inl (h2.trans hm)
        · exact Or.inr ⟨c, List.mem_cons_self c rest, by rw [htc, ← hm, ← h2]⟩
      · exact Or.inr ⟨c', List.mem_cons_of_mem c hc', hx⟩
    · exact (le_max_left a tc).trans h3
    · intro c' hc' t ht
      rcases List.mem_cons.mp hc' with rfl | hc'
      · rw [htc] at ht
        injection ht with ht
        rw [← ht]
        exact (le_max_right a tc).trans h3
      · exact h4 c' hc' t ht

/-- C4: after a full rebuild (`update` with `empty=True`) from a nonempty
list of children each carrying a defined time extent, the aggregate's five
identity sets are exactly the unions of the children's contributions, its
`tmin` is the attained minimum of the children's `tmin`s and its `tmax` the
attained maximum of the children's `tmax`s. -/
theorem rebuild_aggregates (s : GroupSets) (content : List GroupItem)
    (hne : content ≠ [])
    (hmin : ∀ c ∈ content, (itemTmin c).isSome)
    (hmax : ∀ c ∈ content, (itemTmax c).isSome) :
    (∀ x, x ∈ (update s content true).networks ↔
      ∃ c ∈ content, x ∈ itemNetworks c) ∧
    (∀ x, x ∈ (update s content true).stations ↔
      ∃ c ∈ content, x ∈ itemStations c) ∧
    (∀ x, x ∈ (update s content true).locations ↔
      ∃ c ∈ content, x ∈ itemLocations c) ∧
    (∀ x, x ∈ (update s content true).channels ↔
      ∃ c ∈ content, x ∈ itemChannels c) ∧
    (∀ x, x ∈ (update s content true).nslc_ids ↔
      ∃ c ∈ content, x ∈ itemNslcIds c) ∧
    (∃ m, (update s content true).tmin = some m ∧
      (∃ c ∈ content, itemTmin c = some m) ∧
      ∀ c ∈ content, ∀ t, itemTmin c = some t → m ≤ t) ∧
    (∃ m, (update s content true).tmax = some m ∧
      (∃ c ∈ content, itemTmax c = some m) ∧
      ∀ c ∈ content, ∀ t, itemTmax c = some t → t ≤ m) := by
  obtain ⟨c0, rest, rfl⟩ := List.exists_cons_of_ne_nil hne
  refine ⟨?_, ?_, ?_, ?_, ?_, ?_, ?_⟩
  · intro x
    rw [update, foldl_updateStep_mem (fun g => g.networks) itemNetworks
      (fun _ _ => rfl)]
    simp [emptyGroup]
  · intro x
    rw [update, foldl_updateStep_mem (fun g => g.stations) itemStations
      (fun _ _ => rfl)]
    simp [emptyGroup]
  · intro x
    rw [update, foldl_updateStep_mem (fun g => g.locations) itemLocations
      (fun _ _ => rfl)]
    simp [emptyGroup]
  · intro x
    rw [update, foldl_updateStep_mem (fun g => g.channels) itemChannels
      (fun _ _ => rfl)]
    simp [emptyGroup]
  · intro x
    rw [update, foldl_updateStep_mem (fun g => g.nslc_ids) itemNslcIds
      (fun _ _ => rfl)]
    simp [emptyGroup]
  · obtain ⟨t0, ht0⟩ :=
      Option.isSome_iff_exists.mp (hmin c0 (List.mem_cons_self c0 rest))
    obtain ⟨m, h1, h2, h3, h4⟩ := tminFold_spec rest
      (fun c' hc' => hmin c' (List.mem_cons_of_mem c0 hc')) t0
    refine ⟨m, ?_, ?_, ?_⟩
    · rw [update, foldl_updateStep_tmin, List.foldl_cons]
      show List.foldl _ (match (emptyGroup.tmin : Option ℚ) with
        | none => itemTmin c0
        | some x => pyMinOpt (some x) (itemTmin c0)) rest = some m
      rw [show (match (emptyGroup.tmin : Option ℚ) with
        | none => itemTmin c0
        | some x => pyMinOpt (some x) (itemTmin c0)) = itemTmin c0 from rfl,
        ht0]
      exact h1
    · rcases h2 with h2 | ⟨c', hc', hx⟩
      · exact ⟨c0, List.mem_cons_self c0 rest, by rw [ht0, h2]⟩
      · exact ⟨c', List.mem_cons_of_mem c0 hc', hx⟩
    · intro c' hc' t ht
      rcases List.mem_cons.mp hc' with rfl | hc'
      · rw [ht0] at ht
        injection ht with ht
        subst ht
        exact h3
      · exact h4 c' hc' t ht
  · obtain ⟨t0, ht0⟩ :=
      Option.isSome_iff_exists.mp (hmax c0 (List.mem_cons_self c0 rest))
    obtain ⟨m, h1, h2, h3, h4⟩ := tmaxFold_spec rest
      (fun c' hc' => hmax c' (List.mem_cons_of_mem c0 hc')) t0
    refine ⟨m, ?_, ?_, ?_⟩
    · rw [update, foldl_updateStep_tmax, List.foldl_cons]
      show List.foldl _ (match (emptyGroup.tmax : Option ℚ) with
        | none => itemTmax c0
        | some x => pyMaxOpt (some x) (itemTmax c0)) rest = some m
      rw [show (match (emptyGroup.tmax : Option ℚ) with
        | none => itemTmax c0
        | some x => pyMaxOpt (some x) (itemTmax c0)) = itemTmax c0 from rfl,
        ht0]
      exact h1
    · rcases h2 with h2 | ⟨c', hc', hx⟩
      · exact ⟨c0, List.mem_cons_self c0 rest, by rw [ht0, h2]⟩
      · exact ⟨c', List.mem_cons_of_mem c0 hc', hx⟩
    · intro c' hc' t ht
      rcases List.mem_cons.mp hc' with rfl | hc'
      · rw [ht0] at ht
        injection ht with ht
        subst ht
        exact h3
      · exact h4 c' hc' t ht

/-- A concrete two-trace child list for the C4 witness. -/
def c4DemoContent : List GroupItem :=
  [GroupItem.tr ⟨0, 1, 2, 3, 5, 10⟩, GroupItem.tr ⟨4, 1, 2, 3, 3, 8⟩]

/-- Witness for C4 on two concrete traces: both networks appear in the
rebuilt union, and the rebuilt `tmin` is at most both children's. -/
theorem rebuild_aggregates_witness :
    0 ∈ (update emptyGroup c4DemoContent true).networks ∧
    4 ∈ (update emptyGroup c4DemoContent true).networks ∧
    ∃ m, (update emptyGroup c4DemoContent true).tmin = some m ∧ m ≤ 3 := by
  have h := rebuild_aggregates emptyGroup c4DemoContent
    (by simp [c4DemoContent])
    (by intro c hc; simp [c4DemoContent] at hc; rcases hc with rfl | rfl <;>
      rfl)
    (by intro c hc; simp [c4DemoContent] at hc; rcases hc with rfl | rfl <;>
      rfl)
  refine ⟨?_, ?_, ?_⟩
  · exact (h.1 0).mpr ⟨GroupItem.tr ⟨0, 1, 2, 3, 5, 10⟩,
      by simp [c4DemoContent], by simp [itemNetworks]⟩
  · exact (h.1 4).mpr ⟨GroupItem.tr ⟨4, 1, 2, 3, 3, 8⟩,
      by simp [c4DemoContent], by simp [itemNetworks]⟩
  · obtain ⟨m, hm1, _, hm3⟩ := h.2.2.2.2.2.1
    exact ⟨m, hm1, hm3 (GroupItem.tr ⟨4, 1, 2, 3, 3, 8⟩)
      (by simp [c4DemoContent]) 3 rfl⟩

/-! ## Claim about the cache shard round-trip -/

/-- C8: dumping a cache shard and loading it back reproduces, for every
entry whose backing file still exists at load time, an entry with identical
identity sets, span and mtime and with the parent back-reference stripped to
`None`; the loaded shard contains no entry whose backing file no longer
exists; and dumping an empty shard removes its file instead of writing
one. -/
theorem dircache_roundtrip (cache : List (Str × CacheEntry))
    (fileExists : Str → Bool) :
    dump_dircache [] = none ∧
    ∀ content, dump_dircache cache = some content →
      (∀ p e, (p, e) ∈ cache → fileExists p = true →
        (p, stripParent e) ∈ load_dircache content fileExists ∧
        (stripParent e).sets = e.sets ∧ (stripParent e).mtime = e.mtime ∧
        (stripParent e).parent = none) ∧
      (∀ p e, (p, e) ∈ load_dircache content fileExists →
        fileExists p = true) := by
  refine ⟨rfl, ?_⟩
  intro content hdump
  have hcontent : content = cache.map fun p => (p.1, stripParent p.2) := by
    unfold dump_dircache at hdump
    by_cases h : cache.isEmpty
    · rw [if_pos h] at hdump
      exact absurd hdump (by simp)
    · rw [if_neg h] at hdump
      injection hdump with h'
      exact h'.symm
  subst hcontent
  constructor
  · intro p e hmem hfe
    refine ⟨?_, rfl, rfl, rfl⟩
    refine List.mem_filter.mpr ⟨?_, by simpa using hfe⟩
    exact List.mem_map.mpr ⟨(p, e), hmem, rfl⟩
  · intro p e hmem
    simpa using (List.mem_filter.mp hmem).2

/-- A concrete two-entry shard for the C8 witness: file `0` still exists,
file `1` does not. -/
def c8Demo : List (Str × CacheEntry) :=
  [(0, ⟨emptyGroup, 5, some ()⟩), (1, ⟨emptyGroup, 6, none⟩)]

/-- The existence oracle for the C8 witness. -/
def c8Exists : Str → Bool := fun p => p == 0

/-- Witness for C8: dumping and reloading the concrete shard keeps the
surviving file's entry (parent stripped) and only entries of existing
files. -/
theorem dircache_roundtrip_witness :
    (0, stripParent ⟨emptyGroup, 5, some ()⟩) ∈
      load_dircache (c8Demo.map fun p => (p.1, stripParent p.2)) c8Exists ∧
    ∀ p e, (p, e) ∈
      load_dircache (c8Demo.map fun p => (p.1, stripParent p.2)) c8Exists →
        c8Exists p = true := by
  have h := (dircache_roundtrip c8Demo c8Exists).2
    (c8Demo.map fun p => (p.1, stripParent p.2)) (by decide)
  exact ⟨(h.1 0 ⟨emptyGroup, 5, some ()⟩ (by decide) (by decide)).1, h.2⟩

/-! ## Claims about the loader -/

/-- Helper: each processed file adds exactly one outcome — a yielded
`TracesFile` or a recorded failure — to the loader's state. -/
theorem loaderStepWithSubs_count (env : LoaderEnv) (useCache : Bool)
    (st : LoaderState) (fn ap : Str) (subs : Option (List (Str × Str))) :
    (loaderStepWithSubs env useCache st fn ap subs).yielded.length +
      (loaderStepWithSubs env useCache st fn ap subs).failures.length =
    st.yielded.length + st.failures.length + 1 := by
  unfold loaderStepWithSubs loaderLoad
  repeat' split
  all_goals try simp [List.length_append]
  all_goals omega

/-- Helper: the per-file count for the full step including the
filename-attribute pattern. -/
theorem loaderStep_count (env : LoaderEnv) (useCache : Bool)
    (st : LoaderState) (fn : Str) :
    (loaderStep env useCache st fn).yielded.length +
      (loaderStep env useCache st fn).failures.length =
    st.yielded.length + st.failures.length + 1 := by
  simp only [loaderStep]
  split
  · exact loaderStepWithSubs_count env useCache st fn (env.abspath fn) none
  · split
    · simp [List.length_append]
      omega
    · exact loaderStepWithSubs_count env useCache st fn (env.abspath fn) _

/-- Helper: the loader's scan accounts every input file exactly once. -/
theorem loaderRun_count (env : LoaderEnv) (useCache : Bool) :
    ∀ (xs : List Str) (st : LoaderState),
      (loaderRun env useCache st xs).yielded.length +
        (loaderRun env useCache st xs).failures.length =
      st.yielded.length + st.failures.length + xs.length := by
  intro xs
  induction xs with
  | nil => intro st; simp [loaderRun]
  | cons x rest ih =>
    intro st
    have h := ih (loaderStep env useCache st x)
    have hstep := loaderStep_count env useCache st x
    simp only [loaderRun, List.foldl_cons] at h ⊢
    simp only [List.length_cons]
    omega

/-- C9: the loader's scan is interruption-free — processing `xs ++ ys`
equals processing `xs` and continuing with `ys` from the resulting state, so
a failing file never stops the scan of the remaining files; every input file
contributes exactly one outcome (a yielded file or a recorded failure); and
the failures are reported once, as a single batch, only after the whole
input list has been processed (no report when there were none). -/
theorem loader_skip_and_batch (env : LoaderEnv) (useCache : Bool)
    (st : LoaderState) (xs ys : List Str)
    (cache0 : List (Str × TFileMeta)) :
    (loaderRun env useCache st (xs ++ ys) =
      loaderRun env useCache (loaderRun env useCache st xs) ys) ∧
    ((loaderRun env useCache st xs).yielded.length +
        (loaderRun env useCache st xs).failures.length =
      st.yielded.length + st.failures.length + xs.length) ∧
    ((loaderAll env useCache cache0 xs).2 = none ↔
      (loaderAll env useCache cache0 xs).1.failures = []) ∧
    ((loaderAll env useCache cache0 xs).2 =
      if (loaderAll env useCache cache0 xs).1.failures.isEmpty then none
      else some (loaderAll env useCache cache0 xs).1.failures) := by
  refine ⟨?_, loaderRun_count env useCache xs st, ?_, rfl⟩
  · simp [loaderRun, List.foldl_append]
  · simp only [loaderAll, loaderReport]
    by_cases h : (loaderRun env useCache ⟨cache0, [], []⟩ xs).failures.isEmpty
    · rw [if_pos h]
      simpa [List.isEmpty_iff] using h
    · rw [if_neg h]
      simp only [List.isEmpty_iff] at h
      simp [h]

/-- C10: when the filename-attribute pattern matches and yields identity
substitutions (a nonempty `substitutions` dict), the loader re-parses the
file from disk unconditionally — its outcome is the fresh `TracesFile`
construction's, even if a cache entry with a matching mtime exists — and the
fresh entry is never written back to the cache, so the cache's contents are
unchanged by the step. -/
theorem loader_substitutions (env : LoaderEnv) (useCache : Bool)
    (st : LoaderState) (fn : Str) (rx : Str → Option (List (Str × Str)))
    (gd : List (Str × Str)) (mtime : Int)
    (hrx : env.matchAttrs = some rx)
    (hm : rx fn = some gd)
    (hne : filterSubs gd ≠ [])
    (hstat : env.statMtime fn = Except.ok mtime) :
    (loaderStep env useCache st fn).cache = st.cache ∧
    (∀ t, env.loadFile (env.abspath fn) (some (filterSubs gd)) mtime =
        Except.ok t →
      loaderStep env useCache st fn =
        { st with yielded := st.yielded ++ [t] }) ∧
    (∀ e, env.loadFile (env.abspath fn) (some (filterSubs gd)) mtime =
        Except.error e →
      loaderStep env useCache st fn =
        { st with failures := st.failures ++ [env.abspath fn] }) := by
  have htr : subsTruthy (some (filterSubs gd)) = true := by
    obtain ⟨a, l, hl⟩ := List.exists_cons_of_ne_nil hne
    rw [hl]
    rfl
  have hstep : loaderStep env useCache st fn =
      loaderLoad env useCache st (env.abspath fn)
        (some (filterSubs gd)) mtime := by
    simp only [loaderStep]
    split
    · rename_i heq
      rw [hrx] at heq
      exact Option.noConfusion heq
    · rename_i rx' heq
      rw [hrx] at heq
      injection heq with heq
      subst heq
      split
      · rename_i h2
        rw [hm] at h2
        exact Option.noConfusion h2
      · rename_i gd' h2
        rw [hm] at h2
        injection h2 with h2
        subst h2
        unfold loaderStepWithSubs
        split
        · rename_i h3
          rw [hstat] at h3
          exact Except.noConfusion h3
        · rename_i mtime' h3
          rw [hstat] at h3
          injection h3 with h3
          subst h3
          split
          · rfl
          · rw [if_pos (Or.inr htr)]
  rw [hstep]
  refine ⟨?_, ?_, ?_⟩
  · unfold loaderLoad
    split
    · rfl
    · simp [htr]
  · intro t ht
    unfold loaderLoad
    rw [ht]
    simp [htr]
  · intro e he
    unfold loaderLoad
    rw [he]

/-- The external collaborators for the C10 witness: the pattern always
matches with the network key, stat always returns mtime 5, and parsing
succeeds with a recognizable tag. -/
def c10Env : LoaderEnv :=
  { abspath := fun p => p
    matchAttrs := some fun _ => some [(0, 9)]
    statMtime := fun _ => Except.ok 5
    loadFile := fun _ _ m => Except.ok ⟨m, 42⟩ }

/-- Witness for C10: even though the cache holds an entry for the file with
the matching mtime 5, the loader with substitutions re-parses it (yielding
the freshly constructed file, tag 42, not the cached tag 1) and leaves the
cache untouched. -/
theorem loader_substitutions_witness :
    (loaderStep c10Env true ⟨[(7, ⟨5, 1⟩)], [], []⟩ 7).cache =
      [(7, ⟨5, 1⟩)] ∧
    loaderStep c10Env true ⟨[(7, ⟨5, 1⟩)], [], []⟩ 7 =
      ⟨[(7, ⟨5, 1⟩)], [⟨5, 42⟩], []⟩ := by
  have h := loader_substitutions c10Env true ⟨[(7, ⟨5, 1⟩)], [], []⟩ 7
    (fun _ => some [(0, 9)]) [(0, 9)] 5 rfl rfl (by decide) rfl
  refine ⟨h.1, ?_⟩
  have h2 := h.2.1 ⟨5, 42⟩ rfl
  simpa using h2

end MtPile
